import Mathlib

/-!
Verification of the color-ramp module `viewer/viewer/pseudocolor.py`.

The module keeps a global catalog `RAMP` mapping ramp names to Python dicts
with keys `author`, `comments`, `type` and `description`, the latter a dict
mapping the channel names `red`, `green`, `blue` to space-separated strings
of integer control points.  `getLUTForRamp` expands a channel into a lookup
table by linear interpolation (`numpy.interp`), `getRampsForDisplay` lists
the catalog grouped by `type`, and `getRampsFromFile` merges descriptor
entries into the catalog.

The embedding models Python dicts as insertion-ordered association lists,
real arithmetic exactly over `ℚ` (all control points are small integers, so
`numpy`'s double-precision interpolation agrees with the exact rational
value at every point the theorems below evaluate), and raised exceptions as
`Except`-style error results.
-/

namespace Pseudocolor

/-- JSON/Python values as they occur in the ramp catalog and in descriptor
entries: strings and string-keyed, insertion-ordered dictionaries (the only
shapes the descriptor format of the spec uses). -/
inductive PyVal where
  | str : String → PyVal
  | dict : List (String × PyVal) → PyVal

/-- A Python dict with string keys, as an insertion-ordered association
list with distinct keys; lookup is first-match. -/
abbrev PyDict := List (String × PyVal)

/-- The failures the module can produce: Python exceptions (`KeyError`,
`ValueError` from `float()`, `TypeError`, `AttributeError`), plus the three
`# Quit` exits of `getRampsFromFile` (lines 95, 97, 102/104), which have no
executable body in the source and are formalized — following §7 of the spec
— as typed fail-fast failures. -/
inductive PyErr where
  | keyError (k : String)
  | valueError
  | typeError
  | attributeError
  | quitMissingName
  | quitDuplicateName
  | quitMissingChannels
  deriving DecidableEq

instance {ε α : Type} [DecidableEq ε] [DecidableEq α] : DecidableEq (Except ε α) :=
  fun a b =>
    match a, b with
    | .ok x, .ok y => decidable_of_iff (x = y) (by simp)
    | .error x, .error y => decidable_of_iff (x = y) (by simp)
    | .ok _, .error _ => isFalse (by simp)
    | .error _, .ok _ => isFalse (by simp)

/-- Dict indexing `d[k]` (and `k in d` via `isSome`): first match in
insertion order, `none` meaning `KeyError`. -/
def pyGet : PyDict → String → Option PyVal
  | [], _ => none
  | (k', v) :: rest, k => if k' = k then some v else pyGet rest k

/-- The comments string shared by all nine built-in ramps. -/
def brewerComments : String :=
  "Colours from www.colorbrewer.org by Cynthia A. Brewer, Geography, Pennsylvania State University."

/-- The built-in catalog, lines 36-81 of the source: each ramp is a dict
with keys `author`, `comments`, `type` and `description`, and the channel
strings live inside the `description` dict. -/
def RAMP : PyDict := [
  ("Blues", .dict [
    ("author", .str "Cynthia Brewer"),
    ("comments", .str brewerComments),
    ("type", .str "Sequential"),
    ("description", .dict [
      ("red", .str "247 222 198 158 107 66 33 8 8"),
      ("green", .str "251 235 219 202 174 146 113 81 48"),
      ("blue", .str "255 247 239 225 214 198 181 156 107")])]),
  ("Greys", .dict [
    ("author", .str "Cynthia Brewer"),
    ("comments", .str brewerComments),
    ("type", .str "Sequential"),
    ("description", .dict [
      ("red", .str "255 240 217 189 150 115 82 37 0"),
      ("green", .str "255 240 217 189 150 115 82 37 0"),
      ("blue", .str "255 240 217 189 150 115 82 37 0")])]),
  ("RdBu", .dict [
    ("author", .str "Cynthia Brewer"),
    ("comments", .str brewerComments),
    ("type", .str "Diverging"),
    ("description", .dict [
      ("red", .str "103 178 214 244 253 247 209 146 67 33 5"),
      ("green", .str "0 24 96 165 219 247 229 197 147 102 48"),
      ("blue", .str "31 43 77 130 199 247 240 222 195 172 97")])]),
  ("RdYlBu", .dict [
    ("author", .str "Cynthia Brewer"),
    ("comments", .str brewerComments),
    ("type", .str "Diverging"),
    ("description", .dict [
      ("red", .str "165 215 244 253 254 255 224 171 116 69 49"),
      ("green", .str "0 48 109 174 224 255 243 217 173 117 54"),
      ("blue", .str "38 39 67 97 144 191 248 233 209 180 149")])]),
  ("RdYlGn", .dict [
    ("author", .str "Cynthia Brewer"),
    ("comments", .str brewerComments),
    ("type", .str "Diverging"),
    ("description", .dict [
      ("red", .str "165 215 244 253 254 255 217 166 102 26 0"),
      ("green", .str "0 48 109 174 224 255 239 217 189 152 104"),
      ("blue", .str "38 39 67 97 139 191 139 106 99 80 55")])]),
  ("Reds", .dict [
    ("author", .str "Cynthia Brewer"),
    ("comments", .str brewerComments),
    ("type", .str "Sequential"),
    ("description", .dict [
      ("red", .str "255 254 252 252 251 239 203 165 103"),
      ("green", .str "245 224 187 146 106 59 24 15 0"),
      ("blue", .str "240 210 161 114 74 44 29 21 13")])]),
  ("Spectral", .dict [
    ("author", .str "Cynthia Brewer"),
    ("comments", .str brewerComments),
    ("type", .str "Diverging"),
    ("description", .dict [
      ("red", .str "158 213 244 253 254 255 230 171 102 50 94"),
      ("green", .str "1 62 109 174 224 255 245 221 194 136 79"),
      ("blue", .str "66 79 67 97 139 191 152 164 165 189 162")])]),
  ("YlGnBu", .dict [
    ("author", .str "Cynthia Brewer"),
    ("comments", .str brewerComments),
    ("type", .str "Sequential"),
    ("description", .dict [
      ("red", .str "255 237 199 127 65 29 34 37 8"),
      ("green", .str "255 248 233 205 182 145 94 52 29"),
      ("blue", .str "217 177 180 187 196 192 168 148 88")])]),
  ("YlOrRd", .dict [
    ("author", .str "Cynthia Brewer"),
    ("comments", .str brewerComments),
    ("type", .str "Sequential"),
    ("description", .dict [
      ("red", .str "255 255 254 254 253 252 227 189 128"),
      ("green", .str "255 237 217 178 141 78 26 0 0"),
      ("blue", .str "204 160 118 76 60 42 28 38 38")])])]

/-- Split a character list at every space, keeping empty chunks (they are
filtered away below, giving Python `str.split()` semantics on the
space-separated channel strings; other whitespace does not occur here). -/
def splitSp : List Char → List (List Char)
  | [] => [[]]
  | c :: cs =>
    if c = ' ' then [] :: splitSp cs
    else
      match splitSp cs with
      | [] => [[c]]
      | t :: ts => (c :: t) :: ts

/-- Python's `str.split()` on the single-space-separated channel strings:
split on spaces, dropping empty tokens. -/
def pySplit (s : String) : List String :=
  ((splitSp s.data).filter (fun t => t ≠ [])).map (fun t => String.mk t)

/-- One decimal digit. -/
def digit? (c : Char) : Option ℕ :=
  if '0' ≤ c ∧ c ≤ '9' then some (c.toNat - '0'.toNat) else none

/-- Decimal value of a digit string, most significant digit first. -/
def natOfCharsAux (acc : ℕ) : List Char → Option ℕ
  | [] => some acc
  | c :: cs =>
    match digit? c with
    | some d => natOfCharsAux (acc * 10 + d) cs
    | none => none

/-- Python's `float(x)` on one token, as an exact rational.  Channel values
are nonnegative integer numerals (spec §6: "space-separated integers
0-255"), which is all this module ever feeds to `float`; a non-numeric
token is a `ValueError`, modelled as `none`. -/
def pyFloat (s : String) : Option ℚ :=
  match s.data with
  | [] => none
  | l => Option.map (fun n : ℕ => (n : ℚ)) (natOfCharsAux 0 l)

/-- The list comprehension over the tokens: all tokens must convert, the
first failing token raises. -/
def parseFloatList : List String → Option (List ℚ)
  | [] => some []
  | t :: rest =>
    match pyFloat t, parseFloatList rest with
    | some q, some qs => some (q :: qs)
    | _, _ => none

/-- Line 156: `colList = [float(x) for x in colstr.split()]`. -/
def parseFloats (s : String) : Option (List ℚ) :=
  parseFloatList (pySplit s)

/-- `numpy.linspace(a, b, n)`: `n` evenly spaced values from `a` to `b`
inclusive.  For `n = 1` the `ℚ` convention `q / 0 = 0` makes the formula
yield `[a]`, exactly numpy's value. -/
def linspace (a b : ℚ) (n : ℕ) : List ℚ :=
  (List.range n).map (fun i : ℕ => a + (b - a) * (i : ℚ) / ((n : ℚ) - 1))

/-- `numpy.interp` at a single query point over the sample points `pts`
(pairs of x-coordinate and value, x strictly increasing): clamp below the
first x and above the last x, linear interpolation inside each segment. -/
def interpPts : List (ℚ × ℚ) → ℚ → ℚ
  | [], _ => 0
  | [(_, y1)], _ => y1
  | (x1, y1) :: (x2, y2) :: rest, x =>
    if x ≤ x1 then y1
    else if x ≤ x2 then y1 + (y2 - y1) * (x - x1) / (x2 - x1)
    else interpPts ((x2, y2) :: rest) x

/-- `astype(numpy.uint8)` on one interpolated value: truncate toward zero
and reduce modulo 2^8.  On the nonnegative values produced here truncation
coincides with the floor; negative inputs cannot arise (control points
parse as naturals and the interpolation stays inside their range). -/
def pyUInt8 (q : ℚ) : ℕ :=
  (Rat.floor q).toNat % 256

/-- Lines 156-168, after the channel string has been parsed: the x-grid of
the observations, the x-grid of the queries, interpolation, 8-bit cast. -/
def buildChannelLUT (colList : List ℚ) (lutsize : ℕ) : List ℕ :=
  let xobs := linspace 0 255 colList.length
  let xinterp := linspace 0 255 lutsize
  xinterp.map (fun x => pyUInt8 (interpPts (xobs.zip colList) x))

/-- `getLUTForRamp(code, name, lutsize)`, lines 148-168, exactly as
written: line 153 reads `RAMP[name][code]`, i.e. it looks the channel name
up among the ramp's top-level keys (`author`, `comments`, `type`,
`description`), not inside the `description` dict.  An absent key is a
`KeyError`; a dict value has no `.split()` (`AttributeError`); a
non-numeric token is a `ValueError` from `float`; `numpy.interp` raises
`ValueError` when the list of sample points is empty. -/
def getLUTForRamp (ramp : PyDict) (code name : String) (lutsize : ℕ) :
    Except PyErr (List ℕ) :=
  match pyGet ramp name with
  | none => .error (.keyError name)
  | some (.str _) => .error .typeError
  | some (.dict entry) =>
    match pyGet entry code with
    | none => .error (.keyError code)
    | some (.dict _) => .error .attributeError
    | some (.str colstr) =>
      match parseFloats colstr with
      | none => .error .valueError
      | some colList =>
        if colList.isEmpty then .error .valueError
        else .ok (buildChannelLUT colList lutsize)

/-- Variant of `getLUTForRamp` that looks the channel up under the ramp's
`description` block — `RAMP[name]["description"][code]` — which is where
both the built-in catalog and `getRampsFromFile` store the channels and
the lookup the spec's `buildLUT` describes.  The source's `getLUTForRamp`
instead reads `RAMP[name][code]` (line 153) and therefore cannot see the
channels; this definition differs from it in the lookup path only and is
used to state that divergence. -/
def getLUTForRampViaDescription (ramp : PyDict) (code name : String)
    (lutsize : ℕ) : Except PyErr (List ℕ) :=
  match pyGet ramp name with
  | none => .error (.keyError name)
  | some (.str _) => .error .typeError
  | some (.dict entry) =>
    match pyGet entry "description" with
    | none => .error (.keyError "description")
    | some (.str _) => .error .typeError
    | some (.dict desc) =>
      match pyGet desc code with
      | none => .error (.keyError code)
      | some (.dict _) => .error .attributeError
      | some (.str colstr) =>
        match parseFloats colstr with
        | none => .error .valueError
        | some colList =>
          if colList.isEmpty then .error .valueError
          else .ok (buildChannelLUT colList lutsize)

/-- One iteration of the `getRampsFromFile` loop, lines 90-125, over one
descriptor entry `pal`.  The three `# Quit` comments are formalized as
typed failures (spec §7).  The success path of the loop (lines 106-125) is
unreachable: when `"description" in pal` holds, line 101 evaluates
`pal[cur_name]["description"].keys() != ['red', 'green', 'blue']`, which
indexes the entry by its own name (usually a `KeyError`) and, when that
resolves, compares a `dict_keys` view with a list — never equal in
Python 3 — so the entry is always rejected; line 121 is moreover a syntax
error (`'description' = {}` inside a dict literal).  A dict-valued `name`
would be unhashable in the membership test of line 96 (`TypeError`). -/
def stepRamp (ramp : PyDict) (pal : PyDict) : Except PyErr PyDict :=
  match pyGet pal "name" with
  | none => .error .quitMissingName
  | some (.dict _) => .error .typeError
  | some (.str s) =>
    if s ∈ ramp.map Prod.fst then .error .quitDuplicateName
    else
      match pyGet pal "description" with
      | none => .error .quitMissingChannels
      | some _ =>
        match pyGet pal s with
        | none => .error (.keyError s)
        | some (.str _) => .error .typeError
        | some (.dict sub) =>
          match pyGet sub "description" with
          | none => .error (.keyError "description")
          | some (.str _) => .error .attributeError
          | some (.dict _) => .error .quitMissingChannels

/-- `getRampsFromFile` after the file has been read and parsed into the
list of descriptor entries `pals` (file I/O and JSON parsing are the
out-of-scope collaborators of spec §6): fold the loop body over the
entries in file order against the catalog, stopping at the first failure.
Returns the catalog after the call together with the failure, if any. -/
def getRampsFromFile (ramp : PyDict) : List PyDict → PyDict × Option PyErr
  | [] => (ramp, none)
  | pal :: rest =>
    match stepRamp ramp pal with
    | .error e => (ramp, some e)
    | .ok r2 => getRampsFromFile r2 rest

/-- `rampDict[rampType].append(key)` resp. `rampDict[rampType] = [key]`
(lines 136-139): append the key to the group of its type, creating the
group at the end in insertion order, as a Python dict does. -/
def addToGroup : List (String × List String) → String → String →
    List (String × List String)
  | [], t, k => [(t, [k])]
  | (t0, ks) :: rest, t, k =>
    if t0 = t then (t0, ks ++ [k]) :: rest
    else (t0, ks) :: addToGroup rest t k

/-- The first loop of `getRampsForDisplay` (lines 133-139): group the
catalog keys by `RAMP[key]['type']`, in catalog order.  A ramp value that
is not a dict cannot be indexed (`TypeError`); a missing `type` key is a
`KeyError`; a dict-valued `type` would be unhashable as a key of
`rampDict` (`TypeError`). -/
def buildRampDictAux (groups : List (String × List String)) :
    PyDict → Except PyErr (List (String × List String))
  | [] => .ok groups
  | (_, .str _) :: _ => .error .typeError
  | (key, .dict entry) :: rest =>
    match pyGet entry "type" with
    | none => .error (.keyError "type")
    | some (.dict _) => .error .typeError
    | some (.str t) => buildRampDictAux (addToGroup groups t key) rest

/-- `getRampsForDisplay()`, lines 127-146: group by type, then flatten to
`(name, "name (type)")` pairs, groups contiguous, in insertion order. -/
def getRampsForDisplay (ramp : PyDict) : Except PyErr (List (String × String)) :=
  (buildRampDictAux [] ramp).map (fun groups =>
    groups.flatMap (fun g => g.2.map (fun name => (name, name ++ " (" ++ g.1 ++ ")"))))

/-- Explicit state-passing form of `getLUTForRamp`: the source function
(lines 148-168) binds only local variables and contains no assignment to
the module-level `RAMP`, so the catalog after the call is the catalog it
was called against. -/
def getLUTForRampSt (ramp : PyDict) (code name : String) (lutsize : ℕ) :
    Except PyErr (List ℕ) × PyDict :=
  (getLUTForRamp ramp code name lutsize, ramp)

/-- The parsed control points of a channel as stored in the catalog, i.e.
read from the ramp's `description` block. -/
def channelPoints (ramp : PyDict) (name code : String) : Option (List ℚ) :=
  match pyGet ramp name with
  | none => none
  | some v =>
    match v with
    | .str _ => none
    | .dict entry =>
      match pyGet entry "description" with
      | none => none
      | some vd =>
        match vd with
        | .str _ => none
        | .dict desc =>
          match pyGet desc code with
          | none => none
          | some vc =>
            match vc with
            | .dict _ => none
            | .str s => parseFloats s

/-- The classification string `RAMP[name]['type']` of a catalog ramp. -/
def rampType (ramp : PyDict) (name : String) : Option String :=
  match pyGet ramp name with
  | none => none
  | some v =>
    match v with
    | .str _ => none
    | .dict entry =>
      match pyGet entry "type" with
      | none => none
      | some vt =>
        match vt with
        | .dict _ => none
        | .str t => some t

/-- Decidable catalog well-formedness check, used to extract the shape of
every built-in ramp entry once and for all: channel value present as a
string, parsing to a nonempty list of values in [0, 255]. -/
def goodChannelB (v : Option PyVal) : Bool :=
  match v with
  | some (.str s) =>
    match parseFloats s with
    | some L => !L.isEmpty && L.all (fun q => q ≤ 255)
    | none => false
  | _ => false

/-- Decidable well-formedness of the whole built-in catalog: every entry
is a dict with exactly the top-level keys `author`, `comments`, `type`,
`description` (in that insertion order), and its `description` dict has
exactly the channel keys `red`, `green`, `blue`, each a good channel. -/
def RAMPgood : Bool :=
  RAMP.all (fun p =>
    match p.2 with
    | .dict e =>
      (e.map Prod.fst == ["author", "comments", "type", "description"]) &&
      (match pyGet e "description" with
       | some (.dict d) =>
         (d.map Prod.fst == ["red", "green", "blue"]) &&
         goodChannelB (pyGet d "red") && goodChannelB (pyGet d "green") &&
         goodChannelB (pyGet d "blue")
       | _ => false)
    | .str _ => false)

/-! ### Dictionary and parsing lemmas -/

theorem pyGet_eq_none_of_not_mem {d : PyDict} {k : String}
    (h : k ∉ d.map Prod.fst) : pyGet d k = none := by
  induction d with
  | nil => rfl
  | cons p rest ih =>
    obtain ⟨k', v⟩ := p
    simp only [List.map_cons, List.mem_cons, not_or] at h
    simp only [pyGet, if_neg (fun hk : k' = k => h.1 hk.symm)]
    exact ih h.2

theorem pyGet_mem {d : PyDict} {k : String} {v : PyVal}
    (h : pyGet d k = some v) : (k, v) ∈ d := by
  induction d with
  | nil => simp [pyGet] at h
  | cons p rest ih =>
    obtain ⟨k', v'⟩ := p
    by_cases hk : k' = k
    · subst hk
      simp only [pyGet, if_true, eq_self_iff_true, Option.some.injEq] at h
      exact h ▸ List.mem_cons_self _ _
    · simp only [pyGet, if_neg hk] at h
      exact List.mem_cons_of_mem _ (ih h)

theorem pyFloat_nonneg {t : String} {q : ℚ} (h : pyFloat t = some q) : 0 ≤ q := by
  unfold pyFloat at h
  cases hd : t.data with
  | nil => rw [hd] at h; exact Option.noConfusion h
  | cons c cs =>
    rw [hd] at h
    have h' : Option.map (fun n : ℕ => (n : ℚ)) (natOfCharsAux 0 (c :: cs)) =
        some q := h
    cases hn : natOfCharsAux 0 (c :: cs) with
    | none => rw [hn] at h'; exact Option.noConfusion h'
    | some n =>
      rw [hn] at h'
      simp only [Option.map_some', Option.some.injEq] at h'
      rw [← h']
      exact Nat.cast_nonneg n

theorem parseFloatList_nonneg {l : List String} {L : List ℚ}
    (h : parseFloatList l = some L) : ∀ q ∈ L, 0 ≤ q := by
  induction l generalizing L with
  | nil =>
    simp only [parseFloatList, Option.some.injEq] at h
    subst h; simp
  | cons t rest ih =>
    simp only [parseFloatList] at h
    rcases hf : pyFloat t with - | q0 <;> rw [hf] at h
    · exact absurd h (by simp)
    rcases hr : parseFloatList rest with - | L0 <;> rw [hr] at h
    · exact absurd h (by simp)
    simp only [Option.some.injEq] at h
    subst h
    intro q hq
    rcases List.mem_cons.1 hq with rfl | hq
    · exact pyFloat_nonneg hf
    · exact ih hr q hq

theorem parseFloats_nonneg {s : String} {L : List ℚ}
    (h : parseFloats s = some L) : ∀ q ∈ L, 0 ≤ q :=
  parseFloatList_nonneg h

/-! ### The merge routine `getRampsFromFile` -/

/-- Every branch of the loop body rejects its entry: the validation of
lines 99-104 can never be passed (see `stepRamp`), so the merge routine
never inserts anything. -/
theorem stepRamp_error (catalog pal : PyDict) :
    ∃ e, stepRamp catalog pal = .error e := by
  simp only [stepRamp]
  repeat' split
  all_goals exact ⟨_, rfl⟩

/-- C3: `getRampsFromFile` processes descriptor entries in file order and
stops at the first invalid entry: an entry whose name equals an existing
catalog key fails with the duplicate-name exit of line 96/97, no entry
after a failing one is inserted into the catalog, and the catalog —
including every already-present entry — is left unchanged by the call. -/
theorem merge_duplicate_fail_fast :
    (∀ (catalog pal : PyDict) (s : String),
      pyGet pal "name" = some (.str s) → s ∈ catalog.map Prod.fst →
      stepRamp catalog pal = .error .quitDuplicateName) ∧
    (∀ (catalog pal : PyDict) (pals : List PyDict) (e : PyErr),
      stepRamp catalog pal = .error e →
      getRampsFromFile catalog (pal :: pals) = (catalog, some e)) ∧
    (∀ (catalog : PyDict) (pals : List PyDict),
      (getRampsFromFile catalog pals).1 = catalog) := by
  refine ⟨?_, ?_, ?_⟩
  · intro catalog pal s h1 h2
    simp only [stepRamp, h1, if_pos h2]
  · intro catalog pal pals e he
    simp only [getRampsFromFile, he]
  · intro catalog pals
    cases pals with
    | nil => rfl
    | cons pal rest =>
      obtain ⟨e, he⟩ := stepRamp_error catalog pal
      simp only [getRampsFromFile, he]

/-- Witness for C3: a duplicate of the built-in `Blues` entry fails with
the duplicate-name exit, and a file whose first entry is that duplicate
leaves the catalog untouched and reports the failure. -/
theorem merge_duplicate_fail_fast_witness :
    stepRamp RAMP [("name", PyVal.str "Blues")] = .error .quitDuplicateName ∧
    getRampsFromFile RAMP [[("name", PyVal.str "Blues")],
      [("name", PyVal.str "Fresh"), ("description", PyVal.dict [])]] =
      (RAMP, some PyErr.quitDuplicateName) := by
  have h1 := merge_duplicate_fail_fast.1 RAMP [("name", PyVal.str "Blues")]
    "Blues" rfl (by decide)
  exact ⟨h1, merge_duplicate_fail_fast.2.1 RAMP _ _ _ h1⟩

/-- C4 (code_bug): the channel-block validation never behaves as claimed.
An entry whose `description` has keys `red`, `green` only does not fail
with the missing-channels exit but with `KeyError('NewRamp')`, because
line 101 reads `pal[cur_name]["description"]` instead of
`pal["description"]`; an entry with the exact key set `red`, `green`,
`blue` is rejected just the same; and even when `pal[cur_name]` resolves
(third conjunct), the comparison `.keys() != ['red', 'green', 'blue']` of
a `dict_keys` view against a list holds for every key set in Python 3, so
an exact `red`, `green`, `blue` block still takes the quit exit. -/
theorem merge_missing_channels_keyerror :
    stepRamp RAMP [("name", PyVal.str "NewRamp"),
      ("description", PyVal.dict [("red", PyVal.str "255 0"),
        ("green", PyVal.str "255 0")])] = .error (.keyError "NewRamp") ∧
    stepRamp RAMP [("name", PyVal.str "NewRamp"),
      ("description", PyVal.dict [("red", PyVal.str "255 0"),
        ("green", PyVal.str "255 0"), ("blue", PyVal.str "255 0")])] =
      .error (.keyError "NewRamp") ∧
    stepRamp RAMP [("name", PyVal.str "NewRamp"),
      ("description", PyVal.dict [("red", PyVal.str "255 0"),
        ("green", PyVal.str "255 0"), ("blue", PyVal.str "255 0")]),
      ("NewRamp", PyVal.dict [("description", PyVal.dict [("red", PyVal.str "255 0"),
        ("green", PyVal.str "255 0"), ("blue", PyVal.str "255 0")])])] =
      .error .quitMissingChannels :=
  ⟨rfl, rfl, rfl⟩

/-! ### The display listing `getRampsForDisplay` -/

theorem addToGroup_flat (groups : List (String × List String)) (t k : String) :
    ((addToGroup groups t k).flatMap (fun g => g.2)).Perm
      ((groups.flatMap fun g => g.2) ++ [k]) := by
  induction groups with
  | nil => simp [addToGroup]
  | cons g rest ih =>
    obtain ⟨t0, ks⟩ := g
    by_cases ht : t0 = t
    · simp only [addToGroup, if_pos ht, List.flatMap_cons]
      rw [List.append_assoc, List.append_assoc]
      exact List.Perm.append_left ks List.perm_append_comm
    · simp only [addToGroup, if_neg ht, List.flatMap_cons]
      rw [List.append_assoc]
      exact List.Perm.append_left ks ih

theorem buildRampDictAux_flat {rest : PyDict} :
    ∀ {groups : List (String × List String)} {gs : List (String × List String)},
    buildRampDictAux groups rest = .ok gs →
    (gs.flatMap fun g => g.2).Perm
      ((groups.flatMap fun g => g.2) ++ rest.map Prod.fst) := by
  induction rest with
  | nil =>
    intro groups gs h
    obtain rfl : groups = gs := by simpa [buildRampDictAux] using h
    simp
  | cons p rest ih =>
    intro groups gs h
    obtain ⟨key, v⟩ := p
    cases v with
    | str s => simp [buildRampDictAux] at h
    | dict entry =>
      simp only [buildRampDictAux] at h
      cases htv : pyGet entry "type" with
      | none => rw [htv] at h; simp at h
      | some tv =>
        rw [htv] at h
        cases tv with
        | dict d => simp at h
        | str t =>
          refine (ih h).trans ?_
          refine (List.Perm.append_right _ (addToGroup_flat groups t key)).trans ?_
          rw [List.append_assoc]
          simp

/-- C6: `getRampsForDisplay` returns exactly one entry per catalog ramp —
on the built-in catalog, concretely: the five Sequential ramps first, then
the four Diverging ones, each labelled `"name (type)"`, with no duplicate
names and each classification contiguous — and in general the returned
names are a permutation of the catalog keys (one entry per ramp).  The
function reads the catalog and builds only local state, so the catalog is
not modified (its embedding takes the catalog by value and returns only
the listing). -/
theorem ramps_for_display_spec :
    getRampsForDisplay RAMP = .ok [
      ("Blues", "Blues (Sequential)"), ("Greys", "Greys (Sequential)"),
      ("Reds", "Reds (Sequential)"), ("YlGnBu", "YlGnBu (Sequential)"),
      ("YlOrRd", "YlOrRd (Sequential)"), ("RdBu", "RdBu (Diverging)"),
      ("RdYlBu", "RdYlBu (Diverging)"), ("RdYlGn", "RdYlGn (Diverging)"),
      ("Spectral", "Spectral (Diverging)")] ∧
    (∀ (catalog : PyDict) (out : List (String × String)),
      getRampsForDisplay catalog = .ok out →
      (out.map Prod.fst).Perm (catalog.map Prod.fst)) := by
  constructor
  · rfl
  · intro catalog out h
    unfold getRampsForDisplay at h
    cases haux : buildRampDictAux [] catalog with
    | error e => rw [haux] at h; simp [Except.map] at h
    | ok gs =>
      rw [haux] at h
      simp only [Except.map, Except.ok.injEq] at h
      subst h
      have hmap : (gs.flatMap (fun g =>
          g.2.map (fun name => (name, name ++ " (" ++ g.1 ++ ")")))).map Prod.fst =
          gs.flatMap (fun g => g.2) := by
        simp only [List.map_flatMap, List.map_map]
        congr 1
        funext g
        rw [show (Prod.fst ∘ fun name : String =>
          (name, name ++ " (" ++ g.1 ++ ")")) = id from rfl]
        exact List.map_id g.2
      rw [hmap]
      simpa using buildRampDictAux_flat haux

/-- Witness for C6: the names listed for the built-in catalog are a
permutation of its keys. -/
theorem ramps_for_display_spec_witness :
    (([("Blues", "Blues (Sequential)"), ("Greys", "Greys (Sequential)"),
      ("Reds", "Reds (Sequential)"), ("YlGnBu", "YlGnBu (Sequential)"),
      ("YlOrRd", "YlOrRd (Sequential)"), ("RdBu", "RdBu (Diverging)"),
      ("RdYlBu", "RdYlBu (Diverging)"), ("RdYlGn", "RdYlGn (Diverging)"),
      ("Spectral", "Spectral (Diverging)")] : List (String × String)).map
        Prod.fst).Perm (RAMP.map Prod.fst) :=
  ramps_for_display_spec.2 RAMP _ ramps_for_display_spec.1

/-! ### Purity of `getLUTForRamp` -/

/-- C8: `getLUTForRamp` is a pure read.  The catalog after a call is the
catalog before it (the source assigns only locals), and the result is a
function of the looked-up ramp entry and the arguments alone, so two
calls with identical arguments against the same catalog state return
identical output. -/
theorem lut_pure_read :
    (∀ (ramp : PyDict) (code name : String) (lutsize : ℕ),
      (getLUTForRampSt ramp code name lutsize).2 = ramp ∧
      (getLUTForRampSt ramp code name lutsize).1 =
        getLUTForRamp ramp code name lutsize) ∧
    (∀ (ramp ramp' : PyDict) (code name : String) (lutsize : ℕ),
      pyGet ramp name = pyGet ramp' name →
      getLUTForRamp ramp code name lutsize =
        getLUTForRamp ramp' code name lutsize) := by
  refine ⟨fun _ _ _ _ => ⟨rfl, rfl⟩, ?_⟩
  intro ramp ramp' code name lutsize h
  simp only [getLUTForRamp, h]

/-- Witness for C8 at the built-in catalog. -/
theorem lut_pure_read_witness :
    (getLUTForRampSt RAMP "green" "Blues" 9).2 = RAMP ∧
    getLUTForRamp RAMP "green" "Blues" 9 = getLUTForRamp RAMP "green" "Blues" 9 :=
  ⟨(lut_pure_read.1 RAMP "green" "Blues" 9).1,
    lut_pure_read.2 RAMP RAMP "green" "Blues" 9 rfl⟩

/-! ### `numpy.linspace` -/

theorem linspace_length (a b : ℚ) (n : ℕ) : (linspace a b n).length = n := by
  simp [linspace]

theorem linspace_head? (a b : ℚ) {n : ℕ} (hn : 0 < n) :
    (linspace a b n).head? = some a := by
  cases n with
  | zero => exact absurd hn (by norm_num)
  | succ m =>
    rw [linspace, List.range_succ_eq_map]
    simp

theorem linspace_getLast? (a b : ℚ) {n : ℕ} (hn : 2 ≤ n) :
    (linspace a b n).getLast? = some b := by
  cases n with
  | zero => omega
  | succ m =>
    rw [linspace, List.range_succ, List.map_append]
    simp only [List.map_cons, List.map_nil, List.getLast?_concat]
    have hm0 : ((m : ℚ)) ≠ 0 := Nat.cast_ne_zero.mpr (by omega)
    have h1 : ((m + 1 : ℕ) : ℚ) - 1 = (m : ℚ) := by push_cast; ring
    rw [h1, mul_div_assoc, div_self hm0, mul_one]
    congr 1
    ring

theorem linspace_chain_le {a b : ℚ} (hab : a ≤ b) (n : ℕ) :
    List.Chain' (· ≤ ·) (linspace a b n) := by
  rw [linspace, List.chain'_map]
  cases n with
  | zero => simp
  | succ m =>
    rw [List.chain'_range_succ]
    intro i hi
    have hm1 : 1 ≤ m := by omega
    have hm0 : (0 : ℚ) < ((m + 1 : ℕ) : ℚ) - 1 := by
      have : (1 : ℚ) ≤ (m : ℚ) := by exact_mod_cast hm1
      push_cast
      linarith
    have hba : (0 : ℚ) ≤ b - a := by linarith
    have hii : ((i : ℚ)) ≤ ((i + 1 : ℕ) : ℚ) := by push_cast; linarith
    have key : (b - a) * (i : ℚ) ≤ (b - a) * ((i + 1 : ℕ) : ℚ) :=
      mul_le_mul_of_nonneg_left hii hba
    have := (div_le_div_iff_of_pos_right hm0).mpr key
    linarith

theorem linspace_chain_lt {a b : ℚ} (hab : a < b) (n : ℕ) :
    List.Chain' (· < ·) (linspace a b n) := by
  rw [linspace, List.chain'_map]
  cases n with
  | zero => simp
  | succ m =>
    rw [List.chain'_range_succ]
    intro i hi
    have hm1 : 1 ≤ m := by omega
    have hm0 : (0 : ℚ) < ((m + 1 : ℕ) : ℚ) - 1 := by
      have : (1 : ℚ) ≤ (m : ℚ) := by exact_mod_cast hm1
      push_cast
      linarith
    have hba : (0 : ℚ) < b - a := by linarith
    have hii : ((i : ℚ)) < ((i + 1 : ℕ) : ℚ) := by push_cast; linarith
    have key : (b - a) * (i : ℚ) < (b - a) * ((i + 1 : ℕ) : ℚ) :=
      mul_lt_mul_of_pos_left hii hba
    have := (div_lt_div_iff_of_pos_right hm0).mpr key
    linarith

theorem linspace_mem_bounds {m : ℕ} {x : ℚ} (hx : x ∈ linspace 0 255 m) :
    0 ≤ x ∧ x ≤ 255 := by
  simp only [linspace, List.mem_map, List.mem_range] at hx
  obtain ⟨i, hi, rfl⟩ := hx
  rcases Nat.lt_or_ge i 1 with hi1 | hi1
  · obtain rfl : i = 0 := by omega
    norm_num
  · have hm2 : 2 ≤ m := by omega
    have hk : (0 : ℚ) < (m : ℚ) - 1 := by
      have : (2 : ℚ) ≤ (m : ℚ) := by exact_mod_cast hm2
      linarith
    have hiD : (i : ℚ) ≤ (m : ℚ) - 1 := by
      have : (i : ℚ) + 1 ≤ (m : ℚ) := by exact_mod_cast hi
      linarith
    constructor
    · have h1 : (0 : ℚ) ≤ (255 - 0) * (i : ℚ) := by positivity
      have := div_nonneg h1 hk.le
      linarith
    · rw [show (0 : ℚ) + (255 - 0) * (i : ℚ) / ((m : ℚ) - 1) =
        255 * ((i : ℚ) / ((m : ℚ) - 1)) from by ring]
      have ht1 : (i : ℚ) / ((m : ℚ) - 1) ≤ 1 := (div_le_one hk).2 hiD
      have ht0 : 0 ≤ (i : ℚ) / ((m : ℚ) - 1) :=
        div_nonneg (Nat.cast_nonneg i) hk.le
      nlinarith

/-! ### The 8-bit cast -/

theorem ratFloor_eq_floor (q : ℚ) : Rat.floor q = ⌊q⌋ := by
  rw [Rat.floor_def', Rat.floor_def]

theorem pyUInt8_natCast {n : ℕ} (h : n ≤ 255) : pyUInt8 (n : ℚ) = n := by
  unfold pyUInt8
  rw [ratFloor_eq_floor, Int.floor_natCast]
  simp only [Int.toNat_natCast]
  exact Nat.mod_eq_of_lt (by omega)

theorem pyUInt8_mono {q r : ℚ} (h0 : 0 ≤ q) (hqr : q ≤ r) (hr : r ≤ 255) :
    pyUInt8 q ≤ pyUInt8 r := by
  unfold pyUInt8
  rw [ratFloor_eq_floor, ratFloor_eq_floor]
  have h1 : 0 ≤ ⌊q⌋ := Int.floor_nonneg.2 h0
  have h2 : ⌊q⌋ ≤ ⌊r⌋ := Int.floor_le_floor hqr
  have h3 : ⌊r⌋ ≤ 255 := by
    have h4 : ⌊r⌋ ≤ ⌊(255 : ℚ)⌋ := Int.floor_le_floor hr
    have h5 : ⌊(255 : ℚ)⌋ = 255 := by norm_num
    omega
  omega

theorem pyUInt8_lt (q : ℚ) : pyUInt8 q < 256 :=
  Nat.mod_lt _ (by norm_num)

/-! ### Chains -/

theorem chain'_lt_head_le {x : ℚ} {l : List ℚ}
    (h : List.Chain' (· < ·) (x :: l)) : ∀ y ∈ x :: l, x ≤ y := by
  intro y hy
  rcases List.mem_cons.1 hy with rfl | hy'
  · exact le_refl y
  · have hp := List.chain'_iff_pairwise.1 h
    exact le_of_lt ((List.pairwise_cons.1 hp).1 y hy')

/-! ### `numpy.interp` -/

theorem interpPts_cons_of_ge {x1 y1 x2 y2 : ℚ} {rest : List (ℚ × ℚ)} {x : ℚ}
    (h12 : x1 < x2) (hx : x2 ≤ x) :
    interpPts ((x1, y1) :: (x2, y2) :: rest) x = interpPts ((x2, y2) :: rest) x := by
  have hnot : ¬ x ≤ x1 := not_le.2 (lt_of_lt_of_le h12 hx)
  by_cases h2 : x ≤ x2
  · have hxx : x = x2 := le_antisymm h2 hx
    subst hxx
    have hd : x - x1 ≠ 0 := sub_ne_zero.2 h12.ne'
    have hL : interpPts ((x1, y1) :: (x, y2) :: rest) x = y2 := by
      simp only [interpPts]
      rw [if_neg hnot, if_pos le_rfl, mul_div_assoc, div_self hd, mul_one]
      ring
    rw [hL]
    cases rest with
    | nil => rfl
    | cons p tl =>
      obtain ⟨x3, y3⟩ := p
      simp only [interpPts]
      rw [if_pos le_rfl]
  · simp only [interpPts]
    rw [if_neg hnot, if_neg h2]

theorem interpPts_grid : ∀ {pts : List (ℚ × ℚ)},
    List.Chain' (· < ·) (pts.map Prod.fst) →
    ∀ p ∈ pts, interpPts pts p.1 = p.2 := by
  intro pts
  induction pts with
  | nil => intro _ p hp; simp at hp
  | cons p0 tl ih =>
    obtain ⟨x1, y1⟩ := p0
    cases tl with
    | nil =>
      intro _ p hp
      rw [List.mem_singleton.1 hp]
      rfl
    | cons p1 tl2 =>
      obtain ⟨x2, y2⟩ := p1
      intro hchain p hp
      have hx12 : x1 < x2 := (List.chain'_cons.1 hchain).1
      have htl : List.Chain' (· < ·) (((x2, y2) :: tl2).map Prod.fst) :=
        (List.chain'_cons.1 hchain).2
      rcases List.mem_cons.1 hp with rfl | hp'
      · simp only [interpPts]
        rw [if_pos le_rfl]
      · have hx2p : x2 ≤ p.1 :=
          chain'_lt_head_le htl p.1 (List.mem_map_of_mem Prod.fst hp')
        rw [interpPts_cons_of_ge hx12 hx2p]
        exact ih htl p hp'

theorem interpPts_ge_head : ∀ {tl : List (ℚ × ℚ)} {x1 y1 : ℚ} (x : ℚ),
    List.Chain' (· < ·) (((x1, y1) :: tl).map Prod.fst) →
    List.Chain' (· ≤ ·) (((x1, y1) :: tl).map Prod.snd) →
    y1 ≤ interpPts ((x1, y1) :: tl) x := by
  intro tl
  induction tl with
  | nil => intro x1 y1 x _ _; exact le_rfl
  | cons p tl2 ih =>
    obtain ⟨x2, y2⟩ := p
    intro x1 y1 x hx hy
    have hx12 : x1 < x2 := (List.chain'_cons.1 hx).1
    have hy12 : y1 ≤ y2 := (List.chain'_cons.1 hy).1
    have hx' : List.Chain' (· < ·) (((x2, y2) :: tl2).map Prod.fst) :=
      (List.chain'_cons.1 hx).2
    have hy' : List.Chain' (· ≤ ·) (((x2, y2) :: tl2).map Prod.snd) :=
      (List.chain'_cons.1 hy).2
    by_cases h1 : x ≤ x1
    · have hL : interpPts ((x1, y1) :: (x2, y2) :: tl2) x = y1 := by
        simp only [interpPts]; rw [if_pos h1]
      rw [hL]
    · by_cases h2 : x ≤ x2
      · have hL : interpPts ((x1, y1) :: (x2, y2) :: tl2) x =
            y1 + (y2 - y1) * (x - x1) / (x2 - x1) := by
          simp only [interpPts]; rw [if_neg h1, if_pos h2]
        rw [hL]
        have hd : (0 : ℚ) < x2 - x1 := sub_pos.2 hx12
        have hx1 : (0 : ℚ) ≤ x - x1 := by
          have := not_le.1 h1; linarith
        have hnn : 0 ≤ (y2 - y1) * (x - x1) / (x2 - x1) :=
          div_nonneg (mul_nonneg (by linarith) hx1) hd.le
        linarith
      · have hL : interpPts ((x1, y1) :: (x2, y2) :: tl2) x =
            interpPts ((x2, y2) :: tl2) x := by
          simp only [interpPts]; rw [if_neg h1, if_neg h2]
        rw [hL]
        exact le_trans hy12 (ih x hx' hy')

theorem interpPts_mono : ∀ {pts : List (ℚ × ℚ)},
    List.Chain' (· < ·) (pts.map Prod.fst) →
    List.Chain' (· ≤ ·) (pts.map Prod.snd) →
    ∀ {u v : ℚ}, u ≤ v → interpPts pts u ≤ interpPts pts v := by
  intro pts
  induction pts with
  | nil => intro _ _ u v _; exact le_rfl
  | cons p0 tl ih =>
    obtain ⟨x1, y1⟩ := p0
    cases tl with
    | nil => intro _ _ u v _; exact le_rfl
    | cons p1 tl2 =>
      obtain ⟨x2, y2⟩ := p1
      intro hx hy u v huv
      have hx12 : x1 < x2 := (List.chain'_cons.1 hx).1
      have hy12 : y1 ≤ y2 := (List.chain'_cons.1 hy).1
      have hx' : List.Chain' (· < ·) (((x2, y2) :: tl2).map Prod.fst) :=
        (List.chain'_cons.1 hx).2
      have hy' : List.Chain' (· ≤ ·) (((x2, y2) :: tl2).map Prod.snd) :=
        (List.chain'_cons.1 hy).2
      have hd : (0 : ℚ) < x2 - x1 := sub_pos.2 hx12
      by_cases hu1 : u ≤ x1
      · have hL : interpPts ((x1, y1) :: (x2, y2) :: tl2) u = y1 := by
          simp only [interpPts]; rw [if_pos hu1]
        rw [hL]
        exact interpPts_ge_head v hx hy
      · by_cases hu2 : u ≤ x2
        · have hv1 : ¬ v ≤ x1 := fun hv => hu1 (huv.trans hv)
          have hL : interpPts ((x1, y1) :: (x2, y2) :: tl2) u =
              y1 + (y2 - y1) * (u - x1) / (x2 - x1) := by
            simp only [interpPts]; rw [if_neg hu1, if_pos hu2]
          by_cases hv2 : v ≤ x2
          · have hR : interpPts ((x1, y1) :: (x2, y2) :: tl2) v =
                y1 + (y2 - y1) * (v - x1) / (x2 - x1) := by
              simp only [interpPts]; rw [if_neg hv1, if_pos hv2]
            rw [hL, hR]
            have key : (y2 - y1) * (u - x1) ≤ (y2 - y1) * (v - x1) :=
              mul_le_mul_of_nonneg_left (by linarith) (by linarith)
            have := (div_le_div_iff_of_pos_right hd).mpr key
            linarith
          · push_neg at hv2
            have hR : interpPts ((x1, y1) :: (x2, y2) :: tl2) v =
                interpPts ((x2, y2) :: tl2) v :=
              interpPts_cons_of_ge hx12 hv2.le
            rw [hL, hR]
            have h1 : y2 ≤ interpPts ((x2, y2) :: tl2) v :=
              interpPts_ge_head v hx' hy'
            have ht1 : (u - x1) / (x2 - x1) ≤ 1 := (div_le_one hd).2 (by linarith)
            have ht0 : 0 ≤ (u - x1) / (x2 - x1) :=
              div_nonneg (by linarith [not_le.1 hu1]) hd.le
            have hle : y1 + (y2 - y1) * ((u - x1) / (x2 - x1)) ≤ y2 := by
              nlinarith [mul_le_mul_of_nonneg_left ht1
                (by linarith : (0 : ℚ) ≤ y2 - y1)]
            rw [mul_div_assoc]
            linarith
        · push_neg at hu2
          have hv2 : x2 < v := lt_of_lt_of_le hu2 huv
          rw [interpPts_cons_of_ge hx12 hu2.le, interpPts_cons_of_ge hx12 hv2.le]
          exact ih hx' hy' huv

theorem interpPts_neg : ∀ (pts : List (ℚ × ℚ)) (x : ℚ),
    interpPts (pts.map (fun p => (p.1, -p.2))) x = - interpPts pts x := by
  intro pts
  induction pts with
  | nil => intro x; simp [interpPts]
  | cons p0 tl ih =>
    obtain ⟨x1, y1⟩ := p0
    cases tl with
    | nil => intro x; simp [interpPts]
    | cons p1 tl2 =>
      obtain ⟨x2, y2⟩ := p1
      intro x
      simp only [List.map_cons]
      by_cases h1 : x ≤ x1
      · simp only [interpPts]
        rw [if_pos h1, if_pos h1]
      · by_cases h2 : x ≤ x2
        · simp only [interpPts]
          rw [if_neg h1, if_pos h2, if_neg h1, if_pos h2]
          ring
        · simp only [interpPts]
          rw [if_neg h1, if_neg h2, if_neg h1, if_neg h2]
          exact ih x

theorem interpPts_anti {pts : List (ℚ × ℚ)}
    (hx : List.Chain' (· < ·) (pts.map Prod.fst))
    (hy : List.Chain' (· ≥ ·) (pts.map Prod.snd)) :
    ∀ {u v : ℚ}, u ≤ v → interpPts pts v ≤ interpPts pts u := by
  intro u v huv
  have hx2 : List.Chain' (· < ·) ((pts.map (fun p => (p.1, -p.2))).map Prod.fst) := by
    rw [List.map_map]; exact hx
  have hy2 : List.Chain' (· ≤ ·) ((pts.map (fun p => (p.1, -p.2))).map Prod.snd) := by
    rw [List.map_map]
    have : List.Chain' (fun a b : ℚ × ℚ => -a.2 ≤ -b.2) pts := by
      have h1 := (List.chain'_map Prod.snd).1 hy
      exact h1.imp (fun a b h => neg_le_neg h)
    exact (List.chain'_map _).2 this
  have hm := interpPts_mono hx2 hy2 huv
  rw [interpPts_neg, interpPts_neg] at hm
  linarith

theorem interpPts_bounds {lo hi : ℚ} : ∀ {pts : List (ℚ × ℚ)},
    List.Chain' (· < ·) (pts.map Prod.fst) →
    (∀ y ∈ pts.map Prod.snd, lo ≤ y ∧ y ≤ hi) →
    pts ≠ [] → ∀ x, lo ≤ interpPts pts x ∧ interpPts pts x ≤ hi := by
  intro pts
  induction pts with
  | nil => intro _ _ h; exact absurd rfl h
  | cons p0 tl ih =>
    obtain ⟨x1, y1⟩ := p0
    intro hx hy _ x
    have hy1 : lo ≤ y1 ∧ y1 ≤ hi := hy y1 (by simp)
    cases tl with
    | nil => exact hy1
    | cons p1 tl2 =>
      obtain ⟨x2, y2⟩ := p1
      have hy2 : lo ≤ y2 ∧ y2 ≤ hi := hy y2 (by simp)
      have hx12 : x1 < x2 := (List.chain'_cons.1 hx).1
      have hx' : List.Chain' (· < ·) (((x2, y2) :: tl2).map Prod.fst) :=
        (List.chain'_cons.1 hx).2
      by_cases h1 : x ≤ x1
      · have hL : interpPts ((x1, y1) :: (x2, y2) :: tl2) x = y1 := by
          simp only [interpPts]; rw [if_pos h1]
        rw [hL]
        exact hy1
      · by_cases h2 : x ≤ x2
        · have hd : (0 : ℚ) < x2 - x1 := sub_pos.2 hx12
          have hL : interpPts ((x1, y1) :: (x2, y2) :: tl2) x =
              y1 + (y2 - y1) * ((x - x1) / (x2 - x1)) := by
            simp only [interpPts]
            rw [if_neg h1, if_pos h2, mul_div_assoc]
          rw [hL]
          have ht0 : 0 ≤ (x - x1) / (x2 - x1) :=
            div_nonneg (by linarith [not_le.1 h1]) hd.le
          have ht1 : (x - x1) / (x2 - x1) ≤ 1 := (div_le_one hd).2 (by linarith)
          constructor
          · nlinarith [mul_nonneg (by linarith : (0 : ℚ) ≤ y1 - lo)
              (by linarith : (0 : ℚ) ≤ 1 - (x - x1) / (x2 - x1)),
              mul_nonneg (by linarith : (0 : ℚ) ≤ y2 - lo) ht0]
          · nlinarith [mul_nonneg (by linarith : (0 : ℚ) ≤ hi - y1)
              (by linarith : (0 : ℚ) ≤ 1 - (x - x1) / (x2 - x1)),
              mul_nonneg (by linarith : (0 : ℚ) ≤ hi - y2) ht0]
        · rw [interpPts_cons_of_ge hx12 (not_le.1 h2).le]
          exact ih hx' (fun y hyy => hy y (List.mem_cons_of_mem _ hyy)) (by simp) x

theorem interpPts_getLast : ∀ {pts : List (ℚ × ℚ)},
    List.Chain' (· < ·) (pts.map Prod.fst) →
    ∀ {p : ℚ × ℚ}, pts.getLast? = some p → ∀ {x : ℚ}, p.1 ≤ x →
    interpPts pts x = p.2 := by
  intro pts
  induction pts with
  | nil => intro _ p hp; simp at hp
  | cons p0 tl ih =>
    obtain ⟨x1, y1⟩ := p0
    cases tl with
    | nil =>
      intro _ p hp x _
      obtain rfl : (x1, y1) = p := by simpa using hp
      rfl
    | cons p1 tl2 =>
      obtain ⟨x2, y2⟩ := p1
      intro hx p hp x hpx
      have hx12 : x1 < x2 := (List.chain'_cons.1 hx).1
      have hx' : List.Chain' (· < ·) (((x2, y2) :: tl2).map Prod.fst) :=
        (List.chain'_cons.1 hx).2
      rw [List.getLast?_cons_cons] at hp
      have hmem : p ∈ (x2, y2) :: tl2 := List.mem_of_mem_getLast? hp
      have hx2p : x2 ≤ p.1 :=
        chain'_lt_head_le hx' p.1 (List.mem_map_of_mem Prod.fst hmem)
      rw [interpPts_cons_of_ge hx12 (le_trans hx2p hpx)]
      exact ih hx' hp hpx

theorem getLast?_cons_of_ne_nil {α : Type} (x : α) {l : List α} (h : l ≠ []) :
    (x :: l).getLast? = l.getLast? := by
  cases l with
  | nil => exact absurd rfl h
  | cons y tl => exact List.getLast?_cons_cons

theorem zip_getLast? : ∀ {l1 l2 : List ℚ}, l1.length = l2.length → l1 ≠ [] →
    ∃ a b, l1.getLast? = some a ∧ l2.getLast? = some b ∧
      (l1.zip l2).getLast? = some (a, b) := by
  intro l1
  induction l1 with
  | nil => intro l2 _ hne; exact absurd rfl hne
  | cons a l1' ih =>
    intro l2 hlen hne
    cases l2 with
    | nil => simp at hlen
    | cons b l2' =>
      cases l1' with
      | nil =>
        cases l2' with
        | nil => exact ⟨a, b, rfl, rfl, rfl⟩
        | cons b2 l2'' => simp at hlen
      | cons a2 l1'' =>
        cases l2' with
        | nil => simp at hlen
        | cons b2 l2'' =>
          obtain ⟨x, y, h1, h2, h3⟩ := ih
            (show (a2 :: l1'').length = (b2 :: l2'').length by simpa using hlen)
            (by simp)
          refine ⟨x, y, ?_, ?_, ?_⟩
          · rw [List.getLast?_cons_cons]; exact h1
          · rw [List.getLast?_cons_cons]; exact h2
          · rw [List.zip_cons_cons, getLast?_cons_of_ne_nil _
              (by rw [List.zip_cons_cons]; simp)]
            exact h3

/-! ### The channel LUT computation of lines 156-168 -/

theorem buildChannelLUT_length (L : List ℚ) (n : ℕ) :
    (buildChannelLUT L n).length = n := by
  simp [buildChannelLUT, linspace]

theorem buildChannelLUT_zero (L : List ℚ) : buildChannelLUT L 0 = [] := rfl

theorem buildChannelLUT_lt (L : List ℚ) (n : ℕ) :
    ∀ v ∈ buildChannelLUT L n, v < 256 := by
  intro v hv
  simp only [buildChannelLUT, List.mem_map] at hv
  obtain ⟨x, -, rfl⟩ := hv
  exact pyUInt8_lt _

theorem buildChannelLUT_singleton (c : ℚ) (n : ℕ) :
    buildChannelLUT [c] n = List.replicate n (pyUInt8 c) := by
  have h : buildChannelLUT [c] n =
      (linspace 0 255 n).map (fun _ => pyUInt8 c) := rfl
  rw [h, List.map_const', linspace_length]

theorem buildChannelLUT_grid (L : List ℚ) :
    buildChannelLUT L L.length = L.map pyUInt8 := by
  simp only [buildChannelLUT]
  set pts := (linspace 0 255 L.length).zip L with hpts
  have hlen : (linspace 0 255 L.length).length = L.length := linspace_length _ _ _
  have hfst : pts.map Prod.fst = linspace 0 255 L.length :=
    List.map_fst_zip _ _ (le_of_eq hlen)
  have hsnd : pts.map Prod.snd = L :=
    List.map_snd_zip (linspace 0 255 L.length) L (le_of_eq hlen.symm)
  have hchain : List.Chain' (· < ·) (pts.map Prod.fst) := by
    rw [hfst]; exact linspace_chain_lt (by norm_num) _
  rw [← hfst, List.map_map]
  rw [show ((fun x => pyUInt8 (interpPts pts x)) ∘ Prod.fst) =
    (fun p : ℚ × ℚ => pyUInt8 (interpPts pts p.1)) from rfl]
  rw [List.map_congr_left (fun p hp =>
    show pyUInt8 (interpPts pts p.1) = pyUInt8 p.2
    from congrArg pyUInt8 (interpPts_grid hchain p hp))]
  rw [show (fun p : ℚ × ℚ => pyUInt8 p.2) = pyUInt8 ∘ Prod.snd from rfl,
    ← List.map_map, hsnd]

theorem buildChannelLUT_head? {L : List ℚ} {n : ℕ} (hL : L ≠ []) (hn : 0 < n) :
    (buildChannelLUT L n).head? = L.head?.map pyUInt8 := by
  obtain ⟨c, cs, rfl⟩ := List.exists_cons_of_ne_nil hL
  have hinterp : interpPts ((linspace 0 255 (c :: cs).length).zip (c :: cs)) 0 = c := by
    have h0 : (linspace 0 255 (c :: cs).length).head? = some 0 :=
      linspace_head? 0 255 (by simp)
    cases hl : linspace 0 255 (c :: cs).length with
    | nil => rw [hl] at h0; simp at h0
    | cons z rest =>
      rw [hl] at h0
      simp only [List.head?_cons, Option.some.injEq] at h0
      subst h0
      rw [List.zip_cons_cons]
      cases hz : rest.zip cs with
      | nil => rfl
      | cons p ptl =>
        obtain ⟨px, py⟩ := p
        simp only [interpPts]
        rw [if_pos le_rfl]
  simp only [buildChannelLUT]
  rw [List.head?_map, linspace_head? 0 255 hn, Option.map_some', hinterp,
    List.head?_cons, Option.map_some']

theorem buildChannelLUT_getLast? {L : List ℚ} {n : ℕ} (hL : L ≠ []) (hn : 2 ≤ n) :
    (buildChannelLUT L n).getLast? = L.getLast?.map pyUInt8 := by
  simp only [buildChannelLUT]
  rw [List.getLast?_map, linspace_getLast? 0 255 hn, Option.map_some']
  have hlen : (linspace 0 255 L.length).length = L.length := linspace_length _ _ _
  have hne : linspace 0 255 L.length ≠ [] := by
    have hpos : 0 < (linspace 0 255 L.length).length := by
      rw [hlen]; exact List.length_pos.2 hL
    exact List.ne_nil_of_length_pos hpos
  obtain ⟨a, b, h1, h2, h3⟩ := zip_getLast? hlen hne
  have ha : a ≤ 255 := (linspace_mem_bounds (List.mem_of_mem_getLast? h1)).2
  have hchain : List.Chain' (· < ·)
      (((linspace 0 255 L.length).zip L).map Prod.fst) := by
    rw [List.map_fst_zip _ _ (le_of_eq hlen)]
    exact linspace_chain_lt (by norm_num) _
  rw [interpPts_getLast hchain h3 ha, h2, Option.map_some']

theorem buildChannelLUT_chain_ge {L : List ℚ} (hne : L ≠ [])
    (hbd : ∀ q ∈ L, 0 ≤ q ∧ q ≤ 255) (hmono : List.Chain' (· ≥ ·) L) (n : ℕ) :
    List.Chain' (· ≥ ·) (buildChannelLUT L n) := by
  simp only [buildChannelLUT]
  rw [List.chain'_map]
  have hlen : (linspace 0 255 L.length).length = L.length := linspace_length _ _ _
  have hfst : ((linspace 0 255 L.length).zip L).map Prod.fst =
      linspace 0 255 L.length := List.map_fst_zip _ _ (le_of_eq hlen)
  have hsnd : ((linspace 0 255 L.length).zip L).map Prod.snd = L :=
    List.map_snd_zip (linspace 0 255 L.length) L (le_of_eq hlen.symm)
  have hchain : List.Chain' (· < ·)
      (((linspace 0 255 L.length).zip L).map Prod.fst) := by
    rw [hfst]; exact linspace_chain_lt (by norm_num) _
  have hymono : List.Chain' (· ≥ ·)
      (((linspace 0 255 L.length).zip L).map Prod.snd) := by rw [hsnd]; exact hmono
  have hybd : ∀ y ∈ ((linspace 0 255 L.length).zip L).map Prod.snd,
      (0:ℚ) ≤ y ∧ y ≤ 255 := by rw [hsnd]; exact hbd
  have hptsne : (linspace 0 255 L.length).zip L ≠ [] := by
    have hpos : 0 < ((linspace 0 255 L.length).zip L).length := by
      rw [List.length_zip, hlen, Nat.min_self]
      exact List.length_pos.2 hne
    exact List.ne_nil_of_length_pos hpos
  refine (linspace_chain_le (by norm_num) n).imp ?_
  intro a b hab
  have hanti := interpPts_anti hchain hymono hab
  have hba := interpPts_bounds hchain hybd hptsne b
  have haa := interpPts_bounds hchain hybd hptsne a
  exact pyUInt8_mono hba.1 hanti haa.2

theorem buildChannelLUT_chain_le {L : List ℚ} (hne : L ≠ [])
    (hbd : ∀ q ∈ L, 0 ≤ q ∧ q ≤ 255) (hmono : List.Chain' (· ≤ ·) L) (n : ℕ) :
    List.Chain' (· ≤ ·) (buildChannelLUT L n) := by
  simp only [buildChannelLUT]
  rw [List.chain'_map]
  have hlen : (linspace 0 255 L.length).length = L.length := linspace_length _ _ _
  have hfst : ((linspace 0 255 L.length).zip L).map Prod.fst =
      linspace 0 255 L.length := List.map_fst_zip _ _ (le_of_eq hlen)
  have hsnd : ((linspace 0 255 L.length).zip L).map Prod.snd = L :=
    List.map_snd_zip (linspace 0 255 L.length) L (le_of_eq hlen.symm)
  have hchain : List.Chain' (· < ·)
      (((linspace 0 255 L.length).zip L).map Prod.fst) := by
    rw [hfst]; exact linspace_chain_lt (by norm_num) _
  have hymono : List.Chain' (· ≤ ·)
      (((linspace 0 255 L.length).zip L).map Prod.snd) := by rw [hsnd]; exact hmono
  have hybd : ∀ y ∈ ((linspace 0 255 L.length).zip L).map Prod.snd,
      (0:ℚ) ≤ y ∧ y ≤ 255 := by rw [hsnd]; exact hbd
  have hptsne : (linspace 0 255 L.length).zip L ≠ [] := by
    have hpos : 0 < ((linspace 0 255 L.length).zip L).length := by
      rw [List.length_zip, hlen, Nat.min_self]
      exact List.length_pos.2 hne
    exact List.ne_nil_of_length_pos hpos
  refine (linspace_chain_le (by norm_num) n).imp ?_
  intro a b hab
  have hm := interpPts_mono hchain hymono hab
  have hba := interpPts_bounds hchain hybd hptsne b
  have haa := interpPts_bounds hchain hybd hptsne a
  exact pyUInt8_mono haa.1 hm hba.2

/-! ### Branch computation lemmas for the two lookup routines -/

theorem pyUInt8_natCast_mod (n : ℕ) : pyUInt8 (n : ℚ) = n % 256 := by
  unfold pyUInt8
  rw [ratFloor_eq_floor, Int.floor_natCast, Int.toNat_natCast]

theorem getLUTForRamp_keyError_name {ramp : PyDict} {name : String}
    (h : pyGet ramp name = none) (code : String) (size : ℕ) :
    getLUTForRamp ramp code name size = .error (.keyError name) := by
  simp [getLUTForRamp, h]

theorem getLUTForRamp_keyError_code {ramp : PyDict} {name code : String}
    {entry : PyDict} (h1 : pyGet ramp name = some (.dict entry))
    (h2 : pyGet entry code = none) (size : ℕ) :
    getLUTForRamp ramp code name size = .error (.keyError code) := by
  simp [getLUTForRamp, h1, h2]

theorem getLUTForRamp_valueError {ramp : PyDict} {name code : String}
    {entry : PyDict} {s : String} (h1 : pyGet ramp name = some (.dict entry))
    (h2 : pyGet entry code = some (.str s)) (h3 : parseFloats s = none)
    (size : ℕ) : getLUTForRamp ramp code name size = .error .valueError := by
  simp [getLUTForRamp, h1, h2, h3]

theorem getLUTForRamp_ok {ramp : PyDict} {name code : String} {entry : PyDict}
    {s : String} {L : List ℚ} (h1 : pyGet ramp name = some (.dict entry))
    (h2 : pyGet entry code = some (.str s)) (h3 : parseFloats s = some L)
    (h4 : L ≠ []) (size : ℕ) :
    getLUTForRamp ramp code name size = .ok (buildChannelLUT L size) := by
  have h5 : L.isEmpty = false := by
    cases L with
    | nil => exact absurd rfl h4
    | cons a tl => rfl
  simp [getLUTForRamp, h1, h2, h3, h5]

theorem viaDescription_keyError_name {ramp : PyDict} {name : String}
    (h : pyGet ramp name = none) (code : String) (size : ℕ) :
    getLUTForRampViaDescription ramp code name size = .error (.keyError name) := by
  simp [getLUTForRampViaDescription, h]

theorem viaDescription_keyError_code {ramp : PyDict} {name code : String}
    {entry desc : PyDict} (h1 : pyGet ramp name = some (.dict entry))
    (h2 : pyGet entry "description" = some (.dict desc))
    (h3 : pyGet desc code = none) (size : ℕ) :
    getLUTForRampViaDescription ramp code name size = .error (.keyError code) := by
  simp [getLUTForRampViaDescription, h1, h2, h3]

theorem viaDescription_ok {ramp : PyDict} {name code : String}
    {entry desc : PyDict} {s : String} {L : List ℚ}
    (h1 : pyGet ramp name = some (.dict entry))
    (h2 : pyGet entry "description" = some (.dict desc))
    (h3 : pyGet desc code = some (.str s)) (h4 : parseFloats s = some L)
    (h5 : L ≠ []) (size : ℕ) :
    getLUTForRampViaDescription ramp code name size =
      .ok (buildChannelLUT L size) := by
  have h6 : L.isEmpty = false := by
    cases L with
    | nil => exact absurd rfl h5
    | cons a tl => rfl
  simp [getLUTForRampViaDescription, h1, h2, h3, h4, h6]

theorem viaDescription_of_channelPoints {ramp : PyDict} {name code : String}
    {L : List ℚ} (h : channelPoints ramp name code = some L) (h5 : L ≠ [])
    (size : ℕ) :
    getLUTForRampViaDescription ramp code name size =
      .ok (buildChannelLUT L size) := by
  unfold channelPoints at h
  repeat' split at h
  all_goals try exact absurd h (by simp)
  exact viaDescription_ok (by assumption) (by assumption) (by assumption) h h5 size
/-! ### Shape of every built-in catalog entry -/

theorem pyGet_isSome_of_mem {d : PyDict} {k : String}
    (h : k ∈ d.map Prod.fst) : ∃ v, pyGet d k = some v := by
  induction d with
  | nil => simp at h
  | cons p rest ih =>
    obtain ⟨k', v'⟩ := p
    by_cases hk : k' = k
    · subst hk
      exact ⟨v', by simp [pyGet]⟩
    · have hmem : k ∈ rest.map Prod.fst := by
        simp only [List.map_cons, List.mem_cons] at h
        rcases h with h' | h'
        · exact absurd h'.symm hk
        · exact h'
      obtain ⟨v, hv⟩ := ih hmem
      exact ⟨v, by simp [pyGet, hk, hv]⟩

theorem RAMPgood_eq : RAMPgood = true := by decide

theorem goodChannelB_unpack {o : Option PyVal} (ho : goodChannelB o = true) :
    ∃ s L, o = some (.str s) ∧ parseFloats s = some L ∧ L ≠ [] ∧
      ∀ q ∈ L, 0 ≤ q ∧ q ≤ 255 := by
  cases o with
  | none => exact absurd ho (by simp [goodChannelB])
  | some pv =>
    cases pv with
    | dict dd => exact absurd ho (by simp [goodChannelB])
    | str s =>
      rcases hparse : parseFloats s with - | L
      · rw [goodChannelB, hparse] at ho
        exact absurd ho (by simp)
      · rw [goodChannelB, hparse, Bool.and_eq_true] at ho
        obtain ⟨hne, hall255⟩ := ho
        refine ⟨s, L, rfl, hparse, ?_, ?_⟩
        · intro hL
          subst hL
          simp at hne
        · intro q hq
          have h255 := List.all_eq_true.1 hall255 q hq
          exact ⟨parseFloats_nonneg hparse q hq, of_decide_eq_true h255⟩

theorem RAMP_entry_facts {name : String} (hname : name ∈ RAMP.map Prod.fst) :
    ∃ e : PyDict, pyGet RAMP name = some (.dict e) ∧
      e.map Prod.fst = ["author", "comments", "type", "description"] ∧
      ∃ d : PyDict, pyGet e "description" = some (.dict d) ∧
        d.map Prod.fst = ["red", "green", "blue"] ∧
        ∀ code ∈ (["red", "green", "blue"] : List String),
          ∃ (s : String) (L : List ℚ), pyGet d code = some (.str s) ∧
            parseFloats s = some L ∧ L ≠ [] ∧ ∀ q ∈ L, 0 ≤ q ∧ q ≤ 255 := by
  obtain ⟨v, hv⟩ := pyGet_isSome_of_mem hname
  have hmem : (name, v) ∈ RAMP := pyGet_mem hv
  have hall := (List.all_eq_true.1 RAMPgood_eq) (name, v) hmem
  cases v with
  | str s => exact Bool.noConfusion hall
  | dict e =>
    have hall' : ((e.map Prod.fst == ["author", "comments", "type", "description"]) &&
        (match pyGet e "description" with
         | some (.dict d) => (d.map Prod.fst == ["red", "green", "blue"]) &&
             goodChannelB (pyGet d "red") && goodChannelB (pyGet d "green") &&
             goodChannelB (pyGet d "blue")
         | _ => false)) = true := hall
    rw [Bool.and_eq_true] at hall'
    refine ⟨e, hv, eq_of_beq hall'.1, ?_⟩
    rcases hd : pyGet e "description" with - | vd
    · rw [hd] at hall'
      exact absurd hall'.2 (by simp)
    cases vd with
    | str s2 =>
      rw [hd] at hall'
      exact absurd hall'.2 (by simp)
    | dict d =>
      rw [hd] at hall'
      have h2 := hall'.2
      rw [Bool.and_eq_true, Bool.and_eq_true, Bool.and_eq_true] at h2
      obtain ⟨⟨⟨hk2, hr⟩, hg⟩, hb⟩ := h2
      refine ⟨d, rfl, eq_of_beq hk2, ?_⟩
      intro code hcode
      fin_cases hcode
      · exact goodChannelB_unpack hr
      · exact goodChannelB_unpack hg
      · exact goodChannelB_unpack hb

/-! ### The LUT claims -/

/-- C1 (code_bug): line 153 reads `RAMP[name][code]`, so
`getLUTForRamp('green', 'Blues', 9)` raises `KeyError('green')` instead of
returning the control points — the channels live under the `description`
block.  With the evident intended lookup (`getLUTForRampViaDescription`)
the claimed behaviour holds: the Blues green channel at `size = 9` yields
exactly `[251, 235, 219, 202, 174, 146, 113, 81, 48]`; a 2-control-point
channel `[a, b]` at `size = 2` yields exactly `[a, b]`; and in general a
channel with `n` control points at `size = n` returns the control points
exactly (through either lookup path — the last conjunct states it for the
source's own top-level path, which succeeds whenever the channel string is
found where the code looks for it). -/
theorem lut_exact_at_control_points :
    getLUTForRamp RAMP "green" "Blues" 9 = .error (.keyError "green") ∧
    getLUTForRampViaDescription RAMP "green" "Blues" 9 =
      .ok [251, 235, 219, 202, 174, 146, 113, 81, 48] ∧
    (∀ a b : ℕ, a ≤ 255 → b ≤ 255 →
      buildChannelLUT [(a : ℚ), (b : ℚ)] 2 = [a, b]) ∧
    (∀ (catalog : PyDict) (code name : String) (entry : PyDict) (s : String)
      (L : List ℚ), pyGet catalog name = some (.dict entry) →
      pyGet entry code = some (.str s) → parseFloats s = some L → L ≠ [] →
      getLUTForRamp catalog code name L.length = .ok (L.map pyUInt8)) := by
  refine ⟨by decide, ?_, ?_, ?_⟩
  · refine Eq.trans (viaDescription_of_channelPoints
      (show channelPoints RAMP "Blues" "green" =
        some [(251 : ℚ), 235, 219, 202, 174, 146, 113, 81, 48] from by decide)
      (by simp) 9) ?_
    rw [show (9 : ℕ) = [(251 : ℚ), 235, 219, 202, 174, 146, 113, 81, 48].length
        from rfl,
      buildChannelLUT_grid]
    decide
  · intro a b ha hb
    have h2 : buildChannelLUT [(a : ℚ), (b : ℚ)] 2 =
        [(a : ℚ), (b : ℚ)].map pyUInt8 := by
      rw [show (2 : ℕ) = [(a : ℚ), (b : ℚ)].length from rfl, buildChannelLUT_grid]
    rw [h2]
    simp only [List.map_cons, List.map_nil]
    rw [pyUInt8_natCast_mod, pyUInt8_natCast_mod, Nat.mod_eq_of_lt (by omega),
      Nat.mod_eq_of_lt (by omega)]
  · intro catalog code name entry s L h1 h2 h3 h4
    rw [getLUTForRamp_ok h1 h2 h3 h4, buildChannelLUT_grid]

/-- Witness for C1: the 2-point exactness at `[251, 48]`, and the general
grid exactness on a catalog whose channel string sits where line 153
actually looks (a top-level key), with 3 control points at size 3. -/
theorem lut_exact_at_control_points_witness :
    buildChannelLUT [(251 : ℚ), 48] 2 = [251, 48] ∧
    getLUTForRamp [("T", PyVal.dict [("g", PyVal.str "9 5 2")])] "g" "T" 3 =
      .ok [9, 5, 2] := by
  constructor
  · exact lut_exact_at_control_points.2.2.1 251 48 (by norm_num) (by norm_num)
  · have h := lut_exact_at_control_points.2.2.2
      [("T", PyVal.dict [("g", PyVal.str "9 5 2")])] "g" "T" _ "9 5 2"
      [(9 : ℚ), 5, 2] rfl rfl (by decide) (by simp)
    exact h.trans (by decide)

/-- C2 (code_bug): for every built-in ramp name and every channel in
red/green/blue, `getLUTForRamp` fails with `KeyError(channel)` at any
size, because line 153 looks the channel up among the ramp's top-level
keys.  With the intended `description` lookup the claimed guarantee
holds: the call succeeds, the output has exactly `size` entries, each fits
in 8 bits, the first entry is the cast of the first control point (the
value interpolated at coordinate 0), and, for `size ≥ 2`, the last entry
is the cast of the last control point (the value at coordinate 255). -/
theorem lut_length_and_endpoints :
    (∀ (name code : String) (size : ℕ), name ∈ RAMP.map Prod.fst →
      code ∈ (["red", "green", "blue"] : List String) →
      getLUTForRamp RAMP code name size = .error (.keyError code)) ∧
    (∀ (name code : String) (size : ℕ), name ∈ RAMP.map Prod.fst →
      code ∈ (["red", "green", "blue"] : List String) →
      ∃ (L : List ℚ) (lut : List ℕ), channelPoints RAMP name code = some L ∧
        getLUTForRampViaDescription RAMP code name size = .ok lut ∧
        lut.length = size ∧ (∀ v ∈ lut, v < 256) ∧
        (0 < size → lut.head? = L.head?.map pyUInt8) ∧
        (2 ≤ size → lut.getLast? = L.getLast?.map pyUInt8)) := by
  constructor
  · intro name code size hname hcode
    obtain ⟨e, he, hkeys, -⟩ := RAMP_entry_facts hname
    have hcode4 : code ∉ e.map Prod.fst := by
      rw [hkeys]
      fin_cases hcode <;> decide
    exact getLUTForRamp_keyError_code he (pyGet_eq_none_of_not_mem hcode4) size
  · intro name code size hname hcode
    obtain ⟨e, he, -, d, hd, -, hch⟩ := RAMP_entry_facts hname
    obtain ⟨s, L, hs, hL, hne, -⟩ := hch code hcode
    refine ⟨L, buildChannelLUT L size, ?_,
      viaDescription_ok he hd hs hL hne size,
      buildChannelLUT_length L size, buildChannelLUT_lt L size, ?_, ?_⟩
    · simp [channelPoints, he, hd, hs, hL]
    · intro hsz
      exact buildChannelLUT_head? hne hsz
    · intro hsz
      exact buildChannelLUT_getLast? hne hsz

/-- Witness for C2 at the Blues red channel with size 9. -/
theorem lut_length_and_endpoints_witness :
    getLUTForRamp RAMP "red" "Blues" 9 = .error (.keyError "red") ∧
    (∃ (L : List ℚ) (lut : List ℕ), channelPoints RAMP "Blues" "red" = some L ∧
      getLUTForRampViaDescription RAMP "red" "Blues" 9 = .ok lut ∧
      lut.length = 9 ∧ (∀ v ∈ lut, v < 256) ∧
      (0 < 9 → lut.head? = L.head?.map pyUInt8) ∧
      (2 ≤ 9 → lut.getLast? = L.getLast?.map pyUInt8)) :=
  ⟨lut_length_and_endpoints.1 "Blues" "red" 9 (by decide) (by decide),
   lut_length_and_endpoints.2 "Blues" "red" 9 (by decide) (by decide)⟩

/-- C5 (code_bug): an unknown ramp name fails with `KeyError(name)` at
line 153's first subscript, as the claim says, and a channel string that
is not a key of the ramp dict fails with `KeyError(channel)`; but because
the channels are looked up at the ramp's top level, a channel outside
red/green/blue is not uniformly an unknown-channel lookup failure — the
metadata keys are hit instead: `author`, `comments` and `type` fail with
`ValueError` (their string values are not numeric) and `description`
fails with `AttributeError` (a dict has no `.split`) — while the valid
channels red/green/blue themselves fail with `KeyError`.  Under the
intended `description` lookup, every channel outside red/green/blue
fails with `KeyError(channel)` exactly as claimed.  No case ever returns
a silently defaulted table. -/
theorem lut_unknown_lookups :
    (∀ name : String, name ∉ RAMP.map Prod.fst → ∀ (code : String) (size : ℕ),
      getLUTForRamp RAMP code name size = .error (.keyError name) ∧
      getLUTForRampViaDescription RAMP code name size =
        .error (.keyError name)) ∧
    getLUTForRamp RAMP "red" "DoesNotExist" 256 =
      .error (.keyError "DoesNotExist") ∧
    getLUTForRamp RAMP "author" "Blues" 256 = .error .valueError ∧
    getLUTForRamp RAMP "type" "Blues" 256 = .error .valueError ∧
    getLUTForRamp RAMP "description" "Blues" 256 = .error .attributeError ∧
    getLUTForRamp RAMP "red" "Blues" 256 = .error (.keyError "red") ∧
    (∀ (name code : String) (size : ℕ), name ∈ RAMP.map Prod.fst →
      code ∉ (["red", "green", "blue", "author", "comments", "type",
        "description"] : List String) →
      getLUTForRamp RAMP code name size = .error (.keyError code)) ∧
    (∀ (name code : String) (size : ℕ), name ∈ RAMP.map Prod.fst →
      code ∉ (["red", "green", "blue"] : List String) →
      getLUTForRampViaDescription RAMP code name size =
        .error (.keyError code)) := by
  refine ⟨?_, by decide, by decide, by decide, by decide, by decide, ?_, ?_⟩
  · intro name hname code size
    have h := pyGet_eq_none_of_not_mem hname
    exact ⟨getLUTForRamp_keyError_name h code size,
      viaDescription_keyError_name h code size⟩
  · intro name code size hname hcode
    obtain ⟨e, he, hkeys, -⟩ := RAMP_entry_facts hname
    have hnot : code ∉ e.map Prod.fst := by
      rw [hkeys]
      intro hmem
      apply hcode
      simp only [List.mem_cons, List.not_mem_nil, or_false] at hmem ⊢
      tauto
    exact getLUTForRamp_keyError_code he (pyGet_eq_none_of_not_mem hnot) size
  · intro name code size hname hcode
    obtain ⟨e, he, -, d, hd, hdkeys, -⟩ := RAMP_entry_facts hname
    have hnot : code ∉ d.map Prod.fst := by rw [hdkeys]; exact hcode
    exact viaDescription_keyError_code he hd (pyGet_eq_none_of_not_mem hnot) size

/-- Witness for C5: the unknown name through both lookup paths and an
unknown channel string. -/
theorem lut_unknown_lookups_witness :
    getLUTForRampViaDescription RAMP "red" "DoesNotExist" 256 =
      .error (.keyError "DoesNotExist") ∧
    getLUTForRamp RAMP "alpha" "Blues" 7 = .error (.keyError "alpha") ∧
    getLUTForRampViaDescription RAMP "alpha" "Blues" 7 =
      .error (.keyError "alpha") :=
  ⟨(lut_unknown_lookups.1 "DoesNotExist" (by decide) "red" 256).2,
   lut_unknown_lookups.2.2.2.2.2.2.1 "Blues" "alpha" 7 (by decide) (by decide),
   lut_unknown_lookups.2.2.2.2.2.2.2 "Blues" "alpha" 7 (by decide) (by decide)⟩

/-- C7: a catalog channel with exactly one control point `c` produces, at
every positive size, the constant table filling all `size` entries with
`c` — through the lookup path of line 153 (first conjunct; the channel
string sits where the code reads it) as well as through the `description`
block (second conjunct). -/
theorem lut_single_point_constant :
    (∀ (catalog : PyDict) (code name : String) (size : ℕ) (entry : PyDict)
      (s : String) (c : ℕ), pyGet catalog name = some (.dict entry) →
      pyGet entry code = some (.str s) → parseFloats s = some [(c : ℚ)] →
      c ≤ 255 → 0 < size →
      getLUTForRamp catalog code name size = .ok (List.replicate size c)) ∧
    (∀ (catalog : PyDict) (code name : String) (size : ℕ) (entry desc : PyDict)
      (s : String) (c : ℕ), pyGet catalog name = some (.dict entry) →
      pyGet entry "description" = some (.dict desc) →
      pyGet desc code = some (.str s) → parseFloats s = some [(c : ℚ)] →
      c ≤ 255 → 0 < size →
      getLUTForRampViaDescription catalog code name size =
        .ok (List.replicate size c)) := by
  constructor
  · intro catalog code name size entry s c h1 h2 h3 hc hsz
    rw [getLUTForRamp_ok h1 h2 h3 (by simp) size, buildChannelLUT_singleton,
      pyUInt8_natCast_mod, Nat.mod_eq_of_lt (by omega)]
  · intro catalog code name size entry desc s c h1 h2 h3 h4 hc hsz
    rw [viaDescription_ok h1 h2 h3 h4 (by simp) size, buildChannelLUT_singleton,
      pyUInt8_natCast_mod, Nat.mod_eq_of_lt (by omega)]

/-- Witness for C7 on a one-point channel valued 42 at size 5. -/
theorem lut_single_point_constant_witness :
    getLUTForRamp [("Solo", PyVal.dict [("red", PyVal.str "42")])]
      "red" "Solo" 5 = .ok (List.replicate 5 42) ∧
    getLUTForRampViaDescription [("Solo", PyVal.dict [("description",
      PyVal.dict [("red", PyVal.str "42")])])] "red" "Solo" 5 =
      .ok (List.replicate 5 42) :=
  ⟨lut_single_point_constant.1 _ "red" "Solo" 5 _ "42" 42 rfl rfl (by decide)
     (by norm_num) (by norm_num),
   lut_single_point_constant.2 _ "red" "Solo" 5 _ _ "42" 42 rfl rfl rfl
     (by decide) (by norm_num) (by norm_num)⟩

/-- C9 counterexample: `YlGnBu` is a built-in Sequential ramp whose red
control points `255 237 199 127 65 29 34 37 8` are not monotone
non-increasing (they rise from 29 to 34 to 37), so the claim's aside that
every built-in Sequential ramp has monotone non-increasing channels is
false. -/
theorem ylgnbu_red_not_monotone :
    rampType RAMP "YlGnBu" = some "Sequential" ∧
    channelPoints RAMP "YlGnBu" "red" =
      some [255, 237, 199, 127, 65, 29, 34, 37, 8] ∧
    ¬ List.Chain' (· ≥ ·) ([255, 237, 199, 127, 65, 29, 34, 37, 8] : List ℚ) := by
  refine ⟨rfl, by decide, ?_⟩
  intro h
  norm_num [List.chain'_cons] at h

/-- C9 (amended): whenever the channel string the lookup finds parses to a
nonempty control-point list with values in [0, 255], a monotone
non-increasing control list yields a monotone non-increasing LUT at every
size, and a monotone non-decreasing list a monotone non-decreasing LUT —
through line 153's lookup path and through the `description` block
alike. -/
theorem lut_monotone :
    ∀ (catalog : PyDict) (code name : String) (size : ℕ) (entry : PyDict)
      (s : String) (L : List ℚ), pyGet catalog name = some (.dict entry) →
      parseFloats s = some L → L ≠ [] → (∀ q ∈ L, q ≤ 255) →
      ((pyGet entry code = some (.str s) →
        ((List.Chain' (· ≥ ·) L → ∃ lut,
            getLUTForRamp catalog code name size = .ok lut ∧
            List.Chain' (· ≥ ·) lut) ∧
         (List.Chain' (· ≤ ·) L → ∃ lut,
            getLUTForRamp catalog code name size = .ok lut ∧
            List.Chain' (· ≤ ·) lut))) ∧
       (∀ desc : PyDict, pyGet entry "description" = some (.dict desc) →
        pyGet desc code = some (.str s) →
        ((List.Chain' (· ≥ ·) L → ∃ lut,
            getLUTForRampViaDescription catalog code name size = .ok lut ∧
            List.Chain' (· ≥ ·) lut) ∧
         (List.Chain' (· ≤ ·) L → ∃ lut,
            getLUTForRampViaDescription catalog code name size = .ok lut ∧
            List.Chain' (· ≤ ·) lut)))) := by
  intro catalog code name size entry s L h1 hL hne h255
  have hbd : ∀ q ∈ L, 0 ≤ q ∧ q ≤ 255 := fun q hq =>
    ⟨parseFloats_nonneg hL q hq, h255 q hq⟩
  constructor
  · intro h2
    constructor
    · intro hmono
      exact ⟨_, getLUTForRamp_ok h1 h2 hL hne size,
        buildChannelLUT_chain_ge hne hbd hmono size⟩
    · intro hmono
      exact ⟨_, getLUTForRamp_ok h1 h2 hL hne size,
        buildChannelLUT_chain_le hne hbd hmono size⟩
  · intro desc hd h3
    constructor
    · intro hmono
      exact ⟨_, viaDescription_ok h1 hd h3 hL hne size,
        buildChannelLUT_chain_ge hne hbd hmono size⟩
    · intro hmono
      exact ⟨_, viaDescription_ok h1 hd h3 hL hne size,
        buildChannelLUT_chain_le hne hbd hmono size⟩

/-- Witness for C9 on a decreasing 3-point channel at size 4. -/
theorem lut_monotone_witness :
    ∃ lut, getLUTForRamp [("T", PyVal.dict [("g", PyVal.str "9 5 2")])]
      "g" "T" 4 = .ok lut ∧ List.Chain' (· ≥ ·) lut :=
  ((lut_monotone [("T", PyVal.dict [("g", PyVal.str "9 5 2")])] "g" "T" 4 _
    "9 5 2" [(9 : ℚ), 5, 2] rfl (by decide) (by simp) (by decide)).1 rfl).1
    (by norm_num [List.chain'_cons])

/-- C10 (code_bug): with `lutsize = 0` on a built-in ramp and channel the
call still raises `KeyError` at line 153 before the size is ever used;
with the intended `description` lookup — and in general whenever the
channel lookup and parse succeed — size 0 does not fail and returns the
empty table (`numpy.linspace(0, 255, 0)` is empty, `numpy.interp` maps an
empty query grid to an empty array). -/
theorem lut_size_zero :
    getLUTForRamp RAMP "red" "Blues" 0 = .error (.keyError "red") ∧
    getLUTForRampViaDescription RAMP "red" "Blues" 0 = .ok [] ∧
    (∀ (catalog : PyDict) (code name : String) (entry : PyDict) (s : String)
      (L : List ℚ), pyGet catalog name = some (.dict entry) →
      pyGet entry code = some (.str s) → parseFloats s = some L → L ≠ [] →
      getLUTForRamp catalog code name 0 = .ok []) := by
  refine ⟨by decide, ?_, ?_⟩
  · refine Eq.trans (viaDescription_of_channelPoints
      (show channelPoints RAMP "Blues" "red" =
        some [(247 : ℚ), 222, 198, 158, 107, 66, 33, 8, 8] from by decide)
      (by simp) 0) ?_
    rw [buildChannelLUT_zero]
  · intro catalog code name entry s L h1 h2 h3 h4
    rw [getLUTForRamp_ok h1 h2 h3 h4 0, buildChannelLUT_zero]

/-- Witness for C10 on a channel placed where line 153 looks. -/
theorem lut_size_zero_witness :
    getLUTForRamp [("T", PyVal.dict [("g", PyVal.str "9 5 2")])] "g" "T" 0 =
      .ok [] :=
  lut_size_zero.2.2 _ "g" "T" _ "9 5 2" [(9 : ℚ), 5, 2] rfl rfl (by decide)
    (by simp)

end Pseudocolor
